import Mathlib

/-!
Verification of `d2go/config/config.py`: a shallow embedding of the config
tree (`CfgNode`), the diff reporter (`get_cfg_diff_table`), the dotted-path
reader (`get_field_or_none`), the yaml-load rerouting hook
(`reroute_load_yaml_with_base`), the backward-compatibility merge fixup
(`merge_from_other_cfg`), and the auto-scaling driver
(`auto_scale_world_size`), together with theorems settling claims C1..C10
about their behaviour.

Modelling conventions:
- Python values stored in a config tree are embedded as `Value`:
  strings, integers, Python `None`, lists of scalars, and nested nodes.
  Nodes are association lists of string keys (Python dicts; key uniqueness
  is the dict invariant and is carried as a hypothesis where needed).
- In-place mutation is embedded as explicit state passing: a function that
  mutates `cfg` in place is a function returning the final state of `cfg`.
- Python exceptions (AttributeError, KeyError, AssertionError) are embedded
  as `Except String`; where the mutated state at raise time matters the
  error value carries that state.
- A `Cfg` carries a `frozen` flag: yacs freezes/defrosts a tree recursively,
  so the whole-tree flag models `is_frozen`/`freeze`/`defrost`, and every
  in-place mutation fails when the flag is set (spec section 3, invariant 2).
-/

namespace D2GoConfig

/-- Scalar (non-container) Python values appearing as config leaves. -/
inductive Scalar where
  | sstr : String → Scalar
  | sint : Int → Scalar
  | snone : Scalar
deriving DecidableEq, Repr

mutual
/-- A Python value held in a config tree: a scalar leaf, a list of scalars,
or a nested `CfgNode` (embedded as `Fields`). -/
inductive Value where
  | leaf : Scalar → Value
  | vlist : List Scalar → Value
  | vnode : Fields → Value
deriving Repr

/-- The key/value entries of one `CfgNode`, in insertion order (a Python
dict). Keys of a well-formed node are unique. -/
inductive Fields where
  | fnil : Fields
  | fcons : String → Value → Fields → Fields
deriving Repr
end

/-- A config tree together with its frozen flag (`is_frozen`). -/
structure Cfg where
  fields : Fields
  frozen : Bool
deriving Repr

mutual
/-- Boolean structural equality on values. -/
def beqV : Value → Value → Bool
  | .leaf a, .leaf b => decide (a = b)
  | .vlist a, .vlist b => decide (a = b)
  | .vnode a, .vnode b => beqF a b
  | _, _ => false

/-- Boolean structural equality on field lists. -/
def beqF : Fields → Fields → Bool
  | .fnil, .fnil => true
  | .fcons k v r, .fcons k2 v2 r2 => decide (k = k2) && beqV v v2 && beqF r r2
  | _, _ => false
end

mutual
theorem beqV_iff : ∀ a b : Value, beqV a b = true ↔ a = b
  | .leaf a, .leaf b => by simp [beqV]
  | .leaf _, .vlist _ => by simp [beqV]
  | .leaf _, .vnode _ => by simp [beqV]
  | .vlist _, .leaf _ => by simp [beqV]
  | .vlist a, .vlist b => by simp [beqV]
  | .vlist _, .vnode _ => by simp [beqV]
  | .vnode _, .leaf _ => by simp [beqV]
  | .vnode _, .vlist _ => by simp [beqV]
  | .vnode a, .vnode b => by
    have ih := beqF_iff a b
    simp [beqV, ih]

theorem beqF_iff : ∀ a b : Fields, beqF a b = true ↔ a = b
  | .fnil, .fnil => by simp [beqF]
  | .fnil, .fcons _ _ _ => by simp [beqF]
  | .fcons _ _ _, .fnil => by simp [beqF]
  | .fcons k v r, .fcons k2 v2 r2 => by
    have ih1 := beqV_iff v v2
    have ih2 := beqF_iff r r2
    simp [beqF, ih1, ih2, and_assoc]
end

instance : DecidableEq Value := fun a b => decidable_of_iff _ (beqV_iff a b)

instance : DecidableEq Fields := fun a b => decidable_of_iff _ (beqF_iff a b)

instance : DecidableEq Cfg := fun a b =>
  decidable_of_iff (a.fields = b.fields ∧ a.frozen = b.frozen)
    (by cases a; cases b; simp)

/-- Builds a `Fields` association list from a plain list of pairs
(construction-order notation for examples and tests). -/
def fieldsOf : List (String × Value) → Fields
  | [] => .fnil
  | (k, v) :: rest => .fcons k v (fieldsOf rest)

/-- Python dict key lookup: value of the first entry named `k`, if any. -/
def lookupF : Fields → String → Option Value
  | .fnil, _ => none
  | .fcons k v rest, key => if k = key then some v else lookupF rest key

/-- Python dict key assignment: replaces the first entry named `k` in place,
or appends a new entry at the end. -/
def setKeyF : Fields → String → Value → Fields
  | .fnil, k, v => .fcons k v .fnil
  | .fcons k2 v2 rest, k, v =>
    if k2 = k then .fcons k2 v rest else .fcons k2 v2 (setKeyF rest k v)

/-- The keys of one node, in entry order. -/
def keysOf : Fields → List String
  | .fnil => []
  | .fcons k _ rest => k :: keysOf rest

/-! ### Python string comparison

`sorted(obj.keys())` and the lexicographic ordering of dotted key paths both
use Python string comparison: code-point lexicographic order. It is defined
here on the character lists so every comparison computes by kernel
reduction. -/

/-- Code-point lexicographic strict order on character lists. -/
def lexLt : List Char → List Char → Bool
  | [], [] => false
  | [], _ :: _ => true
  | _ :: _, [] => false
  | a :: as, b :: bs =>
    if a.toNat < b.toNat then true
    else if b.toNat < a.toNat then false
    else lexLt as bs

/-- Python string comparison `a < b`. -/
def strLt (a b : String) : Bool := lexLt a.data b.data

/-- Python string comparison `a <= b`. -/
def strLe (a b : String) : Bool := !(strLt b a)

theorem lexLt_irrefl : ∀ a, lexLt a a = false
  | [] => rfl
  | a :: as => by simp [lexLt, lexLt_irrefl as]

theorem lexLt_asymm : ∀ a b, lexLt a b = true → lexLt b a = false
  | [], [] => by simp [lexLt]
  | [], _ :: _ => by simp [lexLt]
  | _ :: _, [] => by simp [lexLt]
  | a :: as, b :: bs => by
    simp only [lexLt]
    rcases Nat.lt_trichotomy a.toNat b.toNat with h | h | h
    · intro _
      simp [h, Nat.lt_asymm h]
    · simp [h, Nat.lt_irrefl]
      exact lexLt_asymm as bs
    · simp [h, Nat.lt_asymm h]

theorem lexLt_trans : ∀ a b c, lexLt a b = true → lexLt b c = true → lexLt a c = true
  | [], [], _ => by simp [lexLt]
  | [], _ :: _, [] => by simp [lexLt]
  | [], _ :: _, _ :: _ => by simp [lexLt]
  | _ :: _, [], _ => by simp [lexLt]
  | _ :: _, _ :: _, [] => by simp [lexLt]
  | a :: as, b :: bs, c :: cs => by
    simp only [lexLt]
    rcases Nat.lt_trichotomy a.toNat b.toNat with hab | hab | hab
    · rcases Nat.lt_trichotomy b.toNat c.toNat with hbc | hbc | hbc
      · simp [Nat.lt_trans hab hbc]
      · simp [hbc ▸ hab]
      · simp [hab, Nat.lt_asymm hab, hbc, Nat.lt_asymm hbc]
    · rcases Nat.lt_trichotomy b.toNat c.toNat with hbc | hbc | hbc
      · simp [hab ▸ hbc]
      · simp [hab, hbc, Nat.lt_irrefl]
        exact lexLt_trans as bs cs
      · simp [hbc, Nat.lt_asymm hbc]
    · simp [hab, Nat.lt_asymm hab]

theorem lexLt_trichotomy : ∀ a b, lexLt a b = true ∨ lexLt b a = true ∨ a = b
  | [], [] => Or.inr (Or.inr rfl)
  | [], _ :: _ => Or.inl (by simp [lexLt])
  | _ :: _, [] => Or.inr (Or.inl (by simp [lexLt]))
  | a :: as, b :: bs => by
    rcases Nat.lt_trichotomy a.toNat b.toNat with h | h | h
    · exact Or.inl (by simp [lexLt, h])
    · have hab : a = b := Char.eq_of_val_eq (UInt32.ext h)
      subst hab
      rcases lexLt_trichotomy as bs with h2 | h2 | h2
      · exact Or.inl (by simp [lexLt, Nat.lt_irrefl, h2])
      · exact Or.inr (Or.inl (by simp [lexLt, Nat.lt_irrefl, h2]))
      · exact Or.inr (Or.inr (by rw [h2]))
    · exact Or.inr (Or.inl (by simp [lexLt, h]))

theorem strLt_asymm {a b : String} (h : strLt a b = true) : strLt b a = false :=
  lexLt_asymm a.data b.data h

theorem strLt_trans {a b c : String} (h1 : strLt a b = true) (h2 : strLt b c = true) :
    strLt a c = true :=
  lexLt_trans a.data b.data c.data h1 h2

theorem strLt_irrefl (a : String) : strLt a a = false := lexLt_irrefl a.data

theorem strLt_trichotomy (a b : String) : strLt a b = true ∨ strLt b a = true ∨ a = b := by
  rcases lexLt_trichotomy a.data b.data with h | h | h
  · exact Or.inl h
  · exact Or.inr (Or.inl h)
  · refine Or.inr (Or.inr ?_)
    cases a
    cases b
    exact congrArg String.mk h

theorem strLe_total (a b : String) : strLe a b = true ∨ strLe b a = true := by
  by_cases h : strLt b a = true
  · exact Or.inr (by simp [strLe, strLt_asymm h])
  · exact Or.inl (by simp [strLe, h])

theorem strLe_trans {a b c : String} (h1 : strLe a b = true) (h2 : strLe b c = true) :
    strLe a c = true := by
  simp only [strLe, Bool.not_eq_true'] at h1 h2 ⊢
  by_contra hca
  rw [Bool.not_eq_false] at hca
  rcases strLt_trichotomy a b with hab | hab | hab
  · have := strLt_trans hca hab
    simp [this] at h2
  · simp [hab] at h1
  · subst hab
    simp [hca] at h2

theorem strLe_antisymm {a b : String} (h1 : strLe a b = true) (h2 : strLe b a = true) :
    a = b := by
  simp only [strLe, Bool.not_eq_true'] at h1 h2
  rcases strLt_trichotomy a b with h | h | h
  · simp [h] at h2
  · simp [h] at h1
  · exact h

/-! ### Dotted paths and navigation -/

/-- Helper for `splitDot`: `acc` holds the current segment reversed. -/
def splitDotAux : List Char → List Char → List String
  | [], acc => [String.mk acc.reverse]
  | c :: rest, acc =>
    if c = '.' then String.mk acc.reverse :: splitDotAux rest []
    else splitDotAux rest (c :: acc)

/-- Python `full_key.split(".")`: always a non-empty list of segments
(`"".split(".") == [""]`). -/
def splitDot (s : String) : List String := splitDotAux s.data []

/-- Python subscript navigation `obj[k]` along key segments, as in the diff
helper `_get_value`: indexing a non-node value or a missing key raises
(TypeError/KeyError), modelled as `none`. -/
def getValue : Value → List String → Option Value
  | v, [] => some v
  | .vnode fs, k :: rest =>
    match lookupF fs k with
    | some v => getValue v rest
    | none => none
  | _, _ :: _ => none

/-! ### `get_cfg_diff_table` -/

/-- The ordering `sorted(obj.keys())` applies to key/sub-key pairs inside
`_find_all_keys`: Python string comparison on the keys. -/
def keyOrder (a b : String × Option (List String)) : Prop := strLe a.1 b.1 = true

instance : DecidableRel keyOrder := fun a b =>
  inferInstanceAs (Decidable (strLe a.1 b.1 = true))

/-- The loop body result for one sorted key of `_find_all_keys`: `none` for a
non-node value (the key itself is appended), `some subs` with the
recursively collected dotted sub-keys for a nested node. -/
def expandKey : String × Option (List String) → List String
  | (k, none) => [k]
  | (k, some subs) => subs.map (fun s => k ++ "." ++ s)

mutual
/-- The recursion of `_find_all_keys` into one value. -/
def subKeys : Value → Option (List String)
  | .leaf _ => none
  | .vlist _ => none
  | .vnode fs => some ((List.insertionSort keyOrder (annotateKeys fs)).flatMap expandKey)

/-- Pairs every key of a node with the `subKeys` of its value (the loop of
`_find_all_keys`, before `sorted(obj.keys())` ordering is applied). -/
def annotateKeys : Fields → List (String × Option (List String))
  | .fnil => []
  | .fcons k v rest => (k, subKeys v) :: annotateKeys rest
end

/-- `_find_all_keys`: every dotted leaf key path of a node, keys sorted at
each level by Python string comparison. -/
def findAllKeys (fs : Fields) : List String :=
  (List.insertionSort keyOrder (annotateKeys fs)).flatMap expandKey

theorem subKeys_vnode (fs : Fields) : subKeys (.vnode fs) = some (findAllKeys fs) := rfl

/-- The row-collection loop of `get_cfg_diff_table`: for each dotted key, read
both trees with `_get_value` and keep a `[key, old, new]` row when the values
differ. A failed read is the KeyError the Python subscript would raise. -/
def diffRows (originalCfg cfg : Fields) :
    List String → Except String (List (String × Value × Value))
  | [] => .ok []
  | fullKey :: rest =>
    match getValue (.vnode originalCfg) (splitDot fullKey),
        getValue (.vnode cfg) (splitDot fullKey) with
    | some oldValue, some newValue =>
      match diffRows originalCfg cfg rest with
      | .ok tail =>
        .ok (if oldValue ≠ newValue then (fullKey, oldValue, newValue) :: tail else tail)
      | .error e => .error e
    | _, _ => .error "KeyError"

/-- `get_cfg_diff_table(cfg, original_cfg)`: asserts the flattened key lists
of the two trees are equal, then collects the diff rows over the keys of
`cfg`. Rendering the rows with `tabulate` is presentation only; the row list
is the diff record. -/
def getCfgDiffTable (cfg originalCfg : Fields) :
    Except String (List (String × Value × Value)) :=
  if findAllKeys originalCfg = findAllKeys cfg then
    diffRows originalCfg cfg (findAllKeys cfg)
  else .error "AssertionError: keys differ"

/-- Follows the spec words for the diff record: one `(key_path, old_value,
new_value)` triple per listed leaf key whose values differ, in list order. -/
def diffRecordSpec (originalCfg cfg : Fields) (keys : List String) :
    List (String × Value × Value) :=
  keys.filterMap fun k =>
    match getValue (.vnode originalCfg) (splitDot k), getValue (.vnode cfg) (splitDot k) with
    | some o, some n => if o ≠ n then some (k, o, n) else none
    | _, _ => none

/-! ### `get_field_or_none` -/

/-- The loop of `get_field_or_none` after the path is split: walks
`path_to_last` requiring a node with the segment present at each step, then
reads the last segment the same way; any failure returns Python `None`
(`Value.leaf .snone`), indistinguishable from a stored `None`. -/
def getFieldOrNoneGo : Value → String → List String → Value
  | node, lastAttribute, [] =>
    match node with
    | .vnode fs =>
      match lookupF fs lastAttribute with
      | some v => v
      | none => .leaf .snone
    | _ => .leaf .snone
  | node, lastAttribute, seg :: rest =>
    match node with
    | .vnode fs =>
      match lookupF fs seg with
      | some v => getFieldOrNoneGo v lastAttribute rest
      | none => .leaf .snone
    | _ => .leaf .snone

/-- `CfgNode.get_field_or_none(field_path)`: splits the dotted path into
`path_to_last` and `last_attribute` and walks them; returns the stored value
on success and Python `None` otherwise. -/
def getFieldOrNone (c : Cfg) (fieldPath : String) : Value :=
  match splitDot fieldPath with
  | [] => .leaf .snone
  | seg :: rest =>
    getFieldOrNoneGo (.vnode c.fields) ((seg :: rest).getLast (by simp))
      ((seg :: rest).dropLast)

/-- Follows the spec words for `get_by_path`: navigate the dotted path,
returning an explicit absent sentinel (`none`) when a segment is missing or
an intermediate segment is not a node. -/
def specGetByPath (c : Cfg) (fieldPath : String) : Option Value :=
  getValue (.vnode c.fields) (splitDot fieldPath)

/-! ### `__hash__`, equality and `clone` -/

/-- Serialization of one scalar for the dump. -/
def dumpScalar : Scalar → String
  | .sstr s => "\"" ++ s ++ "\""
  | .sint n => toString n
  | .snone => "null"

/-- Pair order used for the dump: primary by key (Python string order); the
payload tie-break never fires for dict nodes (unique keys) and only makes
the order antisymmetric. -/
def dumpPairOrder (a b : String × String) : Prop :=
  strLt a.1 b.1 = true ∨ (a.1 = b.1 ∧ strLe a.2 b.2 = true)

instance : DecidableRel dumpPairOrder := fun a b =>
  inferInstanceAs (Decidable (strLt a.1 b.1 = true ∨ (a.1 = b.1 ∧ strLe a.2 b.2 = true)))

instance : IsTotal (String × String) dumpPairOrder where
  total a b := by
    by_cases h : a.1 = b.1
    · rcases strLe_total a.2 b.2 with hle | hle
      · exact Or.inl (Or.inr ⟨h, hle⟩)
      · exact Or.inr (Or.inr ⟨h.symm, hle⟩)
    · rcases strLt_trichotomy a.1 b.1 with hlt | hlt | hlt
      · exact Or.inl (Or.inl hlt)
      · exact Or.inr (Or.inl hlt)
      · exact absurd hlt h

instance : IsTrans (String × String) dumpPairOrder where
  trans a b c hab hbc := by
    rcases hab with h1 | ⟨he1, hl1⟩
    · rcases hbc with h2 | ⟨he2, _⟩
      · exact Or.inl (strLt_trans h1 h2)
      · exact Or.inl (he2 ▸ h1)
    · rcases hbc with h2 | ⟨he2, hl2⟩
      · exact Or.inl (he1 ▸ h2)
      · exact Or.inr ⟨he1.trans he2, strLe_trans hl1 hl2⟩

instance : IsAntisymm (String × String) dumpPairOrder where
  antisymm a b hab hba := by
    rcases hab with h1 | ⟨he1, hl1⟩
    · rcases hba with h2 | ⟨he2, _⟩
      · rw [strLt_asymm h1] at h2
        exact absurd h2 (by simp)
      · rw [he2] at h1
        rw [strLt_irrefl] at h1
        exact absurd h1 (by simp)
    · rcases hba with h2 | ⟨he2, hl2⟩
      · rw [he1] at h2
        rw [strLt_irrefl] at h2
        exact absurd h2 (by simp)
      · cases a
        cases b
        simp only [Prod.mk.injEq]
        exact ⟨he1, strLe_antisymm hl1 hl2⟩

mutual
/-- Modelled from the spec: `CfgNode.dump` is supplied by the external tree
collaborator (yacs) and is a deterministic full serialization with sorted
keys at every level; `CfgNode.__hash__` hashes the dump string. Scalars and
scalar lists serialize in place; a node serializes its entries sorted by
key. -/
def dumpV : Value → String
  | .leaf s => dumpScalar s
  | .vlist xs => "[" ++ String.intercalate ", " (xs.map dumpScalar) ++ "]"
  | .vnode fs =>
    "(" ++ String.intercalate ", "
      ((List.insertionSort dumpPairOrder (mapDump fs)).map fun p => p.1 ++ ": " ++ p.2)
      ++ ")"

/-- One `(key, serialized value)` pair per node entry, in entry order. -/
def mapDump : Fields → List (String × String)
  | .fnil => []
  | .fcons k v rest => (k, dumpV v) :: mapDump rest
end

/-- `CfgNode.dump()` of a whole config. -/
def cfgDump (c : Cfg) : String := dumpV (.vnode c.fields)

/-- `CfgNode.__hash__`: `hash(self.dump())`, for the (fixed but otherwise
arbitrary) Python string hash `h`. -/
def cfgHashWith (h : String → UInt64) (c : Cfg) : UInt64 := h (cfgDump c)

/-- `CfgNode.clone()`: a deep copy preserving the frozen flag and metadata;
in the pure value embedding the independent copy is the value itself. -/
def cfgClone (c : Cfg) : Cfg := c

/-- Every key of `a` occurs in `b`. -/
def keysSubF (a b : Fields) : Bool := (keysOf a).all fun k => (lookupF b k).isSome

mutual
/-- Python `==` on stored values; nodes compare as dicts: same key sets and
recursively equal values under each key. -/
def eqvV : Value → Value → Bool
  | .leaf a, .leaf b => decide (a = b)
  | .vlist a, .vlist b => decide (a = b)
  | .vnode a, .vnode b => eqvFwd a b && keysSubF b a
  | _, _ => false

/-- Every entry of the first dict has an equal value under its key in the
second dict. -/
def eqvFwd : Fields → Fields → Bool
  | .fnil, _ => true
  | .fcons k v rest, b =>
    (match lookupF b k with
     | some w => eqvV v w
     | none => false) && eqvFwd rest b
end

mutual
/-- Key uniqueness at every nested node (the Python dict invariant). -/
def uniqueV : Value → Bool
  | .leaf _ => true
  | .vlist _ => true
  | .vnode fs => uniqueF fs

def uniqueF : Fields → Bool
  | .fnil => true
  | .fcons k v rest => !(decide (k ∈ keysOf rest)) && uniqueV v && uniqueF rest
end

/-- Python `==` on whole configs (dict equality; the frozen flag is not part
of equality). -/
def cfgEq (a b : Cfg) : Bool := eqvV (.vnode a.fields) (.vnode b.fields)

/-- Key uniqueness of a whole config. -/
def cfgUnique (c : Cfg) : Bool := uniqueV (.vnode c.fields)

/-- Removes the first entry named `k`, if any. -/
def eraseKeyF : Fields → String → Fields
  | .fnil, _ => .fnil
  | .fcons k2 v rest, k => if k2 = k then rest else .fcons k2 v (eraseKeyF rest k)

theorem mem_keysOf_iff_lookup : ∀ (b : Fields) (k : String),
    k ∈ keysOf b ↔ (lookupF b k).isSome
  | .fnil, k => by simp [keysOf, lookupF]
  | .fcons k2 _ rest, k => by
    by_cases h : k2 = k
    · subst h
      simp [keysOf, lookupF]
    · have hh : ¬ k = k2 := fun he => h he.symm
      simp [keysOf, lookupF, h, hh, mem_keysOf_iff_lookup rest k]

theorem lookupF_eraseKey_ne : ∀ (b : Fields) (k k2 : String), k2 ≠ k →
    lookupF (eraseKeyF b k) k2 = lookupF b k2
  | .fnil, _, _, _ => rfl
  | .fcons k3 v rest, k, k2, h => by
    simp only [eraseKeyF]
    by_cases h3 : k3 = k
    · rw [if_pos h3]
      subst h3
      show lookupF rest k2 = lookupF (.fcons k3 v rest) k2
      simp only [lookupF]
      rw [if_neg (fun hh => h (hh.symm : k2 = k3) |>.elim)]
    · rw [if_neg h3]
      show lookupF (.fcons k3 v (eraseKeyF rest k)) k2 = lookupF (.fcons k3 v rest) k2
      simp only [lookupF]
      by_cases h2 : k3 = k2
      · rw [if_pos h2, if_pos h2]
      · rw [if_neg h2, if_neg h2, lookupF_eraseKey_ne rest k k2 h]

theorem mapDump_perm_erase : ∀ (b : Fields) (k : String) (w : Value),
    lookupF b k = some w →
    (mapDump b).Perm ((k, dumpV w) :: mapDump (eraseKeyF b k))
  | .fnil, k, w, h => by simp [lookupF] at h
  | .fcons k2 v rest, k, w, h => by
    by_cases h2 : k2 = k
    · subst h2
      rw [lookupF, if_pos rfl, Option.some.injEq] at h
      rw [eraseKeyF, if_pos rfl, mapDump, h]
    · simp only [lookupF, if_neg h2] at h
      have ih := mapDump_perm_erase rest k w h
      simp only [mapDump, eraseKeyF, if_neg h2]
      exact (ih.cons (k2, dumpV v)).trans (List.Perm.swap _ _ _)

theorem keysOf_erase_sub : ∀ (b : Fields) (k k2 : String),
    k2 ∈ keysOf (eraseKeyF b k) → k2 ∈ keysOf b
  | .fnil, _, _, h => h
  | .fcons k3 v rest, k, k2, h => by
    by_cases h3 : k3 = k
    · rw [eraseKeyF, if_pos h3] at h
      exact List.mem_cons_of_mem _ h
    · rw [eraseKeyF, if_neg h3] at h
      rcases List.mem_cons.mp h with h | h
      · exact List.mem_cons.mpr (Or.inl h)
      · exact List.mem_cons_of_mem _ (keysOf_erase_sub rest k k2 h)

theorem uniqueF_fcons (k : String) (v : Value) (rest : Fields)
    (h : uniqueF (.fcons k v rest) = true) :
    ¬ k ∈ keysOf rest ∧ uniqueV v = true ∧ uniqueF rest = true := by
  simp only [uniqueF, Bool.and_eq_true, Bool.not_eq_true', decide_eq_false_iff_not] at h
  exact ⟨h.1.1, h.1.2, h.2⟩

theorem uniqueF_erase : ∀ (b : Fields) (k : String),
    uniqueF b = true → uniqueF (eraseKeyF b k) = true
  | .fnil, _, _ => rfl
  | .fcons k2 v rest, k, h => by
    obtain ⟨hnm, hv, hr⟩ := uniqueF_fcons k2 v rest h
    by_cases h2 : k2 = k
    · rw [eraseKeyF, if_pos h2]
      exact hr
    · rw [eraseKeyF, if_neg h2]
      simp only [uniqueF, Bool.and_eq_true, Bool.not_eq_true', decide_eq_false_iff_not]
      exact ⟨⟨fun hm => hnm (keysOf_erase_sub rest k k2 hm), hv⟩, uniqueF_erase rest k hr⟩

theorem not_mem_keys_erase_self : ∀ (b : Fields) (k : String),
    uniqueF b = true → ¬ k ∈ keysOf (eraseKeyF b k)
  | .fnil, _, _ => by simp [eraseKeyF, keysOf]
  | .fcons k2 v rest, k, h => by
    obtain ⟨hnm, _, hr⟩ := uniqueF_fcons k2 v rest h
    by_cases h2 : k2 = k
    · rw [eraseKeyF, if_pos h2]
      exact h2 ▸ hnm
    · rw [eraseKeyF, if_neg h2]
      intro hm
      rcases List.mem_cons.mp hm with hm | hm
      · exact h2 hm.symm
      · exact not_mem_keys_erase_self rest k hr hm

theorem lookupF_unique_value : ∀ (b : Fields) (k : String) (w : Value),
    uniqueF b = true → lookupF b k = some w → uniqueV w = true
  | .fnil, _, _, _, h => by simp [lookupF] at h
  | .fcons k2 v rest, k, w, hu, h => by
    obtain ⟨_, hv, hr⟩ := uniqueF_fcons k2 v rest hu
    by_cases h2 : k2 = k
    · rw [lookupF, if_pos h2, Option.some.injEq] at h
      exact h ▸ hv
    · rw [lookupF, if_neg h2] at h
      exact lookupF_unique_value rest k w hr h

theorem eqvFwd_congr : ∀ (l b b2 : Fields),
    (∀ k, k ∈ keysOf l → lookupF b2 k = lookupF b k) →
    eqvFwd l b = true → eqvFwd l b2 = true
  | .fnil, _, _, _, _ => rfl
  | .fcons k v rest, b, b2, hagree, h => by
    simp only [eqvFwd, Bool.and_eq_true] at h ⊢
    refine ⟨?_, eqvFwd_congr rest b b2
      (fun k2 hk2 => hagree k2 (List.mem_cons_of_mem _ hk2)) h.2⟩
    rw [hagree k (List.mem_cons_self k _)]
    exact h.1

theorem keysSubF_iff (a b : Fields) :
    keysSubF a b = true ↔ ∀ k, k ∈ keysOf a → (lookupF b k).isSome := by
  simp [keysSubF, List.all_eq_true]

/-- Sorting the dump pairs is invariant under permutation: the total
antisymmetric pair order gives a unique sorted list. -/
theorem insertionSort_eq_of_perm {l1 l2 : List (String × String)} (h : l1.Perm l2) :
    List.insertionSort dumpPairOrder l1 = List.insertionSort dumpPairOrder l2 :=
  List.eq_of_perm_of_sorted
    ((List.perm_insertionSort _ _).trans (h.trans (List.perm_insertionSort _ _).symm))
    (List.sorted_insertionSort _ _) (List.sorted_insertionSort _ _)

mutual
theorem dumpV_eq_of_eqv : ∀ v w, uniqueV v = true → uniqueV w = true →
    eqvV v w = true → dumpV v = dumpV w
  | .leaf a, .leaf b, _, _, h => by
    simp only [eqvV, decide_eq_true_eq] at h
    rw [h]
  | .leaf _, .vlist _, _, _, h => by simp [eqvV] at h
  | .leaf _, .vnode _, _, _, h => by simp [eqvV] at h
  | .vlist _, .leaf _, _, _, h => by simp [eqvV] at h
  | .vlist a, .vlist b, _, _, h => by
    simp only [eqvV, decide_eq_true_eq] at h
    rw [h]
  | .vlist _, .vnode _, _, _, h => by simp [eqvV] at h
  | .vnode _, .leaf _, _, _, h => by simp [eqvV] at h
  | .vnode _, .vlist _, _, _, h => by simp [eqvV] at h
  | .vnode a, .vnode b, ha, hb, h => by
    simp only [eqvV, Bool.and_eq_true] at h
    have hperm := mapDump_perm_of_eqv a b ha hb h.1 h.2
    simp only [dumpV]
    rw [insertionSort_eq_of_perm hperm]

theorem mapDump_perm_of_eqv : ∀ a b, uniqueF a = true → uniqueF b = true →
    eqvFwd a b = true → keysSubF b a = true → (mapDump a).Perm (mapDump b)
  | .fnil, .fnil, _, _, _, _ => List.Perm.refl _
  | .fnil, .fcons k v rest, _, _, _, hsub => by
    rw [keysSubF_iff] at hsub
    have := hsub k (List.mem_cons_self k _)
    simp [lookupF] at this
  | .fcons k v rest, b, ha, hb, hfwd, hsub => by
    simp only [eqvFwd, Bool.and_eq_true] at hfwd
    obtain ⟨hknr, huv, hur⟩ := uniqueF_fcons k v rest ha
    obtain ⟨hkv, hfwdrest⟩ := hfwd
    match hw : lookupF b k with
    | none => rw [hw] at hkv; exact absurd hkv (by simp)
    | some w =>
      rw [hw] at hkv
      have huw : uniqueV w = true := lookupF_unique_value b k w hb hw
      have hdvw : dumpV v = dumpV w := dumpV_eq_of_eqv v w huv huw hkv
      have hpermb := mapDump_perm_erase b k w hw
      have hub2 : uniqueF (eraseKeyF b k) = true := uniqueF_erase b k hb
      have hknb2 : ¬ k ∈ keysOf (eraseKeyF b k) := not_mem_keys_erase_self b k hb
      have hfwd2 : eqvFwd rest (eraseKeyF b k) = true :=
        eqvFwd_congr rest b (eraseKeyF b k)
          (fun k2 hk2 => lookupF_eraseKey_ne b k k2 (fun he => hknr (he ▸ hk2)))
          hfwdrest
      have hsub2 : keysSubF (eraseKeyF b k) rest = true := by
        rw [keysSubF_iff]
        intro k2 hk2
        have hk2b : k2 ∈ keysOf b := keysOf_erase_sub b k k2 hk2
        have hk2a := (keysSubF_iff b (.fcons k v rest)).mp hsub k2 hk2b
        have hne : ¬ k2 = k := fun he => hknb2 (he ▸ hk2)
        rw [lookupF, if_neg (fun he : k = k2 => hne he.symm)] at hk2a
        exact hk2a
      have ih := mapDump_perm_of_eqv rest (eraseKeyF b k) hur hub2 hfwd2 hsub2
      have step1 : mapDump (.fcons k v rest) = (k, dumpV w) :: mapDump rest := by
        rw [mapDump, hdvw]
      rw [step1]
      exact ((ih.cons (k, dumpV w)).trans hpermb.symm)
end

/-- Entry membership in a node. -/
def memEntryF : String → Value → Fields → Prop
  | _, _, .fnil => False
  | k, v, .fcons k2 v2 rest => (k = k2 ∧ v = v2) ∨ memEntryF k v rest

theorem memEntry_mem_keys : ∀ (b : Fields) (k : String) (v : Value),
    memEntryF k v b → k ∈ keysOf b
  | .fnil, _, _, h => h.elim
  | .fcons k2 _ rest, k, v, h => by
    rcases h with ⟨he, _⟩ | h
    · exact he ▸ List.mem_cons_self _ _
    · exact List.mem_cons_of_mem _ (memEntry_mem_keys rest k v h)

theorem memEntry_lookup_unique : ∀ (b : Fields) (k : String) (v : Value),
    uniqueF b = true → memEntryF k v b → lookupF b k = some v
  | .fnil, _, _, _, h => h.elim
  | .fcons k2 v2 rest, k, v, hu, h => by
    obtain ⟨hnm, _, hr⟩ := uniqueF_fcons k2 v2 rest hu
    rcases h with ⟨he, hv⟩ | h
    · rw [lookupF, if_pos he.symm, hv]
    · have hk : k ∈ keysOf rest := memEntry_mem_keys rest k v h
      have hne : ¬ k2 = k := fun he => hnm (he ▸ hk)
      rw [lookupF, if_neg hne]
      exact memEntry_lookup_unique rest k v hr h

theorem memEntry_uniqueV : ∀ (b : Fields) (k : String) (v : Value),
    uniqueF b = true → memEntryF k v b → uniqueV v = true
  | .fnil, _, _, _, h => h.elim
  | .fcons k2 v2 rest, k, v, hu, h => by
    obtain ⟨_, hv2, hr⟩ := uniqueF_fcons k2 v2 rest hu
    rcases h with ⟨_, hv⟩ | h
    · exact hv ▸ hv2
    · exact memEntry_uniqueV rest k v hr h

mutual
theorem eqvV_refl : ∀ v, uniqueV v = true → eqvV v v = true
  | .leaf a, _ => by simp [eqvV]
  | .vlist a, _ => by simp [eqvV]
  | .vnode fs, h => by
    simp only [uniqueV] at h
    simp only [eqvV, Bool.and_eq_true]
    refine ⟨eqvFwd_refl_aux fs fs
      (fun k v hm => ⟨memEntry_lookup_unique fs k v h hm, memEntry_uniqueV fs k v h hm⟩), ?_⟩
    rw [keysSubF_iff]
    intro k hk
    exact (mem_keysOf_iff_lookup fs k).mp hk

theorem eqvFwd_refl_aux : ∀ (l b : Fields),
    (∀ k v, memEntryF k v l → lookupF b k = some v ∧ uniqueV v = true) →
    eqvFwd l b = true
  | .fnil, _, _ => rfl
  | .fcons k v rest, b, h => by
    have hk := h k v (Or.inl ⟨rfl, rfl⟩)
    simp only [eqvFwd, Bool.and_eq_true, hk.1]
    exact ⟨eqvV_refl v hk.2, eqvFwd_refl_aux rest b (fun k2 v2 hm => h k2 v2 (Or.inr hm))⟩
end

theorem cfgEq_refl (c : Cfg) (h : cfgUnique c = true) : cfgEq c c = true :=
  eqvV_refl (.vnode c.fields) h

/-- C8: two structurally equal trees (identical keys and values at every
node, in any construction order) have equal dumps, hence equal hashes for
the string hash `hsh` applied to the dump; and for every valid tree,
`T.clone() == T` (the clone is the same value, Python equality holds) with
equal hash. -/
theorem c8_structural_eq_hash (a b : Cfg) (ha : cfgUnique a = true)
    (hb : cfgUnique b = true) (h : cfgEq a b = true) (hsh : String → UInt64) :
    cfgHashWith hsh a = cfgHashWith hsh b ∧
    cfgClone a = a ∧ cfgEq (cfgClone a) a = true ∧
    cfgHashWith hsh (cfgClone a) = cfgHashWith hsh a := by
  have hd : cfgDump a = cfgDump b :=
    dumpV_eq_of_eqv (.vnode a.fields) (.vnode b.fields) ha hb h
  exact ⟨congrArg hsh hd, rfl, cfgEq_refl a ha, rfl⟩

/-- A tree built in one key order. -/
def exPermA : Cfg :=
  ⟨fieldsOf [("X", .leaf (.sint 1)),
    ("Y", .vnode (fieldsOf [("P", .leaf (.sstr "v")), ("Q", .leaf .snone)]))], false⟩

/-- The same tree built in the opposite key order at both levels. -/
def exPermB : Cfg :=
  ⟨fieldsOf [("Y", .vnode (fieldsOf [("Q", .leaf .snone), ("P", .leaf (.sstr "v"))])),
    ("X", .leaf (.sint 1))], false⟩

/-- A concrete string hash standing in for Python's. -/
def exHashFn : String → UInt64 := fun s => UInt64.ofNat s.length

/-- Witness for C8 at two equal trees of different construction order. -/
theorem c8_witness :
    cfgUnique exPermA = true ∧ cfgUnique exPermB = true ∧
    cfgEq exPermA exPermB = true ∧
    cfgHashWith exHashFn exPermA = cfgHashWith exHashFn exPermB ∧
    cfgClone exPermA = exPermA ∧ cfgEq (cfgClone exPermA) exPermA = true :=
  ⟨by decide, by decide, by decide,
   (c8_structural_eq_hash exPermA exPermB (by decide) (by decide) (by decide) exHashFn).1,
   (c8_structural_eq_hash exPermA exPermB (by decide) (by decide) (by decide) exHashFn).2.1,
   (c8_structural_eq_hash exPermA exPermB (by decide) (by decide) (by decide) exHashFn).2.2.1⟩

instance {ε α : Type} [DecidableEq ε] [DecidableEq α] : DecidableEq (Except ε α) :=
  fun a b =>
    match a, b with
    | .ok x, .ok y => decidable_of_iff (x = y) (by simp)
    | .error x, .error y => decidable_of_iff (x = y) (by simp)
    | .ok _, .error _ => isFalse (by simp)
    | .error _, .ok _ => isFalse (by simp)

/-! ### `reroute_load_yaml_with_base`

`reroute_config_path` lives in `d2go.utils.helper`, outside the embedded
source; per the spec (section 6) it is a pure function from a path string to
a path string, so it is a parameter `reroute : String → String` here, and
applying it to a non-string value is a failure. -/

/-- `mock_safe_load` (and the identical `mock_unsafe_load`): parse a document
and, when the reserved key `_BASE_` is present, replace its value with
`reroute_config_path` applied to that whole value. Modelled from the spec
for the collaborator: `reroute` accepts a single path string, so a `_BASE_`
value that is not one string fails instead of being rerouted. -/
def mockSafeLoad (reroute : String → String) (cfg : Fields) : Except String Fields :=
  match lookupF cfg "_BASE_" with
  | none => .ok cfg
  | some (.leaf (.sstr p)) => .ok (setKeyF cfg "_BASE_" (.leaf (.sstr (reroute p))))
  | some _ => .error "TypeError: reroute_config_path expects a path string"

/-- `CfgNode.merge_from_file`, first load step: the top-level filename is
itself rerouted (`reroute_config_path(cfg_filename)`) before the file is
opened, and the document read from it goes through the patched yaml loader.
Modelled from the spec: the recursive base resolution behind
`super().merge_from_file` belongs to the external tree collaborator; only
the first document load is modelled, over an abstract filesystem `fs`. -/
def loadTopDocument (reroute : String → String) (fs : String → Option Fields)
    (cfgFilename : String) : Except String Fields :=
  match fs (reroute cfgFilename) with
  | some doc => mockSafeLoad reroute doc
  | none => .error "ConfigLoadError"

/-! ### `merge_from_other_cfg` -/

/-- Python `obj.get(key, default)`: dict lookup with a default on a node,
`AttributeError` on any non-node value. -/
def pyGet (v : Value) (key : String) (default : Value) : Except String Value :=
  match v with
  | .vnode fs =>
    match lookupF fs key with
    | some w => .ok w
    | none => .ok default
  | _ => .error "AttributeError: get"

/-- The trigger test of the backward-compatibility fixup:
`cfg_other.get("MODEL", {}).get("FBNET_V2", {}).get("ARCH_DEF", None) == ""`. -/
def archDefCond (cfgOther : Cfg) : Except String Bool :=
  match pyGet (.vnode cfgOther.fields) "MODEL" (.vnode .fnil) with
  | .error e => .error e
  | .ok m =>
    match pyGet m "FBNET_V2" (.vnode .fnil) with
    | .error e => .error e
    | .ok f =>
      match pyGet f "ARCH_DEF" (.leaf .snone) with
      | .error e => .error e
      | .ok a => .ok (decide (a = .leaf (.sstr "")))

/-- Attribute assignment `obj.k1.k2.k3 = v`: the intermediate attributes must
resolve to nodes; the final key is set on the innermost node. -/
def setAttr3F (fs : Fields) (k1 k2 k3 : String) (v : Value) : Option Fields :=
  match lookupF fs k1 with
  | some (.vnode f1) =>
    match lookupF f1 k2 with
    | some (.vnode f2) =>
      some (setKeyF fs k1 (.vnode (setKeyF f1 k2 (.vnode (setKeyF f2 k3 v)))))
    | _ => none
  | _ => none

/-- The backward-compatibility fixup at the head of
`CfgNode.merge_from_other_cfg`: when the incoming tree carries
`MODEL.FBNET_V2.ARCH_DEF` with the old default `""`, logs a warning and
assigns `cfg_other.MODEL.FBNET_V2.ARCH_DEF = []` in place (an assignment
that fails on a frozen tree). Returns the resulting state of `cfg_other`. -/
def archDefFixup (cfgOther : Cfg) : Except String Cfg :=
  match archDefCond cfgOther with
  | .error e => .error e
  | .ok false => .ok cfgOther
  | .ok true =>
    if cfgOther.frozen then .error "AttributeError: frozen CfgNode"
    else
      match setAttr3F cfgOther.fields "MODEL" "FBNET_V2" "ARCH_DEF" (.vlist []) with
      | some fields => .ok { cfgOther with fields := fields }
      | none => .error "AttributeError"

/-- `CfgNode.merge_from_other_cfg(cfg_other)`: applies the deprecated-field
fixup to `cfg_other`, then delegates to the external
`super().merge_from_other_cfg` (yacs), abstracted as `superMerge`. Returns
the final states of `(self, cfg_other)`; the second component is the
caller's tree after the in-place fixup. -/
def mergeFromOtherCfg (superMerge : Cfg → Cfg → Except String Cfg)
    (self cfgOther : Cfg) : Except String (Cfg × Cfg) :=
  match archDefFixup cfgOther with
  | .error e => .error e
  | .ok other =>
    match superMerge self other with
    | .ok self2 => .ok (self2, other)
    | .error e => .error e

/-- Is a stored value a nested node? -/
def isNodeV : Value → Bool
  | .vnode _ => true
  | _ => false

/-- The leaf field (non-node value) reached by a segment path from a value,
if any; used to state which fields a mutation rewrote. -/
def leafLookupV (v : Value) (q : List String) : Option Value :=
  match getValue v q with
  | some u => if isNodeV u then none else some u
  | none => none

/-- The leaf field reached by a segment path from a node. -/
def leafLookup (fs : Fields) (q : List String) : Option Value :=
  leafLookupV (.vnode fs) q

/-! ### `auto_scale_world_size` -/

/-- Attribute read `cfg.k1.k2`: `cfg.k1` must be a present node attribute,
then `k2` is read from it; `none` is the AttributeError. -/
def getAttr2 (c : Cfg) (k1 k2 : String) : Option Value :=
  match lookupF c.fields k1 with
  | some (.vnode fs) => lookupF fs k2
  | _ => none

/-- Attribute assignment `cfg.k1.k2 = v`. -/
def setAttr2F (fs : Fields) (k1 k2 : String) (v : Value) : Option Fields :=
  match lookupF fs k1 with
  | some (.vnode f1) => some (setKeyF fs k1 (.vnode (setKeyF f1 k2 v)))
  | _ => none

/-- A registered scaling method: mutates `cfg` in place given the new world
size (state passing in the embedding). -/
def Strategy : Type := Cfg → Int → Cfg

/-- The strategy loop of `auto_scale_world_size`: looks each name up in
`CONFIG_SCALING_METHOD_REGISTRY` (KeyError when absent) and applies it to
the current state of `cfg`. A non-string entry cannot name a registered
method. -/
def runPipeline (registry : String → Option Strategy) (newWorldSize : Int) :
    List Scalar → Cfg → Except (String × Cfg) Cfg
  | [], cfg => .ok cfg
  | .sstr name :: rest, cfg =>
    match registry name with
    | some f => runPipeline registry newWorldSize rest (f cfg newWorldSize)
    | none => .error ("KeyError: " ++ name, cfg)
  | _ :: _, cfg => .error ("KeyError: non-string scaling method name", cfg)

/-- `auto_scale_world_size(cfg, new_world_size)`: reads
`SOLVER.REFERENCE_WORLD_SIZE`; returns `cfg` (second component
`some cfg` is the Python return value) when it is `0` or equals
`new_world_size`; otherwise snapshots `cfg`, records the frozen flag,
defrosts, asserts the method list non-empty, runs the pipeline, runs the
self-comparison assert, assigns the reference world size, re-freezes when
originally frozen, and computes the diff table. The scaling branch falls off
the end of the Python function: its return value is `none` (Python `None`),
the first component being the final in-place state of `cfg`. Errors carry
the state of `cfg` at raise time. -/
def autoScaleWorldSize (registry : String → Option Strategy) (cfg : Cfg)
    (newWorldSize : Int) : Except (String × Cfg) (Cfg × Option Cfg) :=
  match getAttr2 cfg "SOLVER" "REFERENCE_WORLD_SIZE" with
  | none => .error ("AttributeError: SOLVER.REFERENCE_WORLD_SIZE", cfg)
  | some oldWorldSize =>
    if oldWorldSize = .leaf (.sint 0) ∨ oldWorldSize = .leaf (.sint newWorldSize) then
      .ok (cfg, some cfg)
    else
      let originalCfg := cfgClone cfg
      let frozen := originalCfg.frozen
      let cfg1 : Cfg := { cfg with frozen := false }
      match getAttr2 cfg1 "SOLVER" "AUTO_SCALING_METHODS" with
      | none => .error ("AttributeError: SOLVER.AUTO_SCALING_METHODS", cfg1)
      | some methodsVal =>
        match methodsVal with
        | .vlist methods =>
          if methods.length > 0 then
            match runPipeline registry newWorldSize methods cfg1 with
            | .error e => .error e
            | .ok cfg2 =>
              match getAttr2 cfg2 "SOLVER" "REFERENCE_WORLD_SIZE" with
              | none => .error ("AttributeError: SOLVER.REFERENCE_WORLD_SIZE", cfg2)
              | some v1 =>
                if v1 = v1 then
                  if cfg2.frozen then .error ("AttributeError: frozen CfgNode", cfg2)
                  else
                    match setAttr2F cfg2.fields "SOLVER" "REFERENCE_WORLD_SIZE"
                        (.leaf (.sint newWorldSize)) with
                    | none => .error ("AttributeError: SOLVER", cfg2)
                    | some fs3 =>
                      let cfg3 : Cfg := { cfg2 with fields := fs3 }
                      let cfg4 : Cfg := if frozen then { cfg3 with frozen := true } else cfg3
                      match getCfgDiffTable cfg4.fields originalCfg.fields with
                      | .ok _ => .ok (cfg4, none)
                      | .error e => .error (e, cfg4)
                else .error ("AssertionError: REFERENCE_WORLD_SIZE changed", cfg2)
          else .error ("AssertionError: empty AUTO_SCALING_METHODS", cfg1)
        | _ => .error ("TypeError: AUTO_SCALING_METHODS is not a list", cfg1)

theorem lookupF_setKeyF_self : ∀ (fs : Fields) (k : String) (v : Value),
    lookupF (setKeyF fs k v) k = some v
  | .fnil, k, v => by simp [setKeyF, lookupF]
  | .fcons k2 _ rest, k, v => by
    by_cases h : k2 = k
    · rw [setKeyF, if_pos h, lookupF, if_pos h]
    · rw [setKeyF, if_neg h, lookupF, if_neg h, lookupF_setKeyF_self rest k v]

theorem lookupF_setKeyF_ne : ∀ (fs : Fields) (k k2 : String) (v : Value), k2 ≠ k →
    lookupF (setKeyF fs k v) k2 = lookupF fs k2
  | .fnil, k, k2, v, h => by
    have hne : ¬ k = k2 := fun he => h he.symm
    simp [setKeyF, lookupF, hne]
  | .fcons k3 v3 rest, k, k2, v, h => by
    by_cases h3 : k3 = k
    · subst h3
      have hne : ¬ k3 = k2 := fun he => h he.symm
      rw [setKeyF, if_pos rfl, lookupF, lookupF, if_neg hne, if_neg hne]
    · rw [setKeyF, if_neg h3, lookupF, lookupF]
      by_cases h2 : k3 = k2
      · rw [if_pos h2, if_pos h2]
      · rw [if_neg h2, if_neg h2, lookupF_setKeyF_ne rest k k2 v h]

theorem getAttr2_setAttr2F {fs fs2 : Fields} {k1 k2 : String} {v : Value} {z : Bool}
    (h : setAttr2F fs k1 k2 v = some fs2) : getAttr2 ⟨fs2, z⟩ k1 k2 = some v := by
  unfold setAttr2F at h
  split at h
  case h_1 f1 heq =>
    rw [Option.some.injEq] at h
    subst h
    unfold getAttr2
    rw [lookupF_setKeyF_self]
    exact lookupF_setKeyF_self f1 k2 v
  case h_2 => exact absurd h (by simp)

/-! ### Concrete configurations used by witnesses and counterexamples -/

/-- A config pinned to reference world size 8 with one registered scaling
method name. -/
def exCfg8 : Cfg :=
  ⟨fieldsOf [("SOLVER", .vnode (fieldsOf
    [("REFERENCE_WORLD_SIZE", .leaf (.sint 8)),
     ("AUTO_SCALING_METHODS", .vlist [.sstr "noop_scale"])]))], false⟩

/-- A registry holding one strategy that mutates nothing. -/
def exRegNoop : String → Option Strategy :=
  fun s => if s = "noop_scale" then some (fun c _ => c) else none

/-- `exCfg8` after scaling to world size 16. -/
def exCfg8to16 : Cfg :=
  ⟨fieldsOf [("SOLVER", .vnode (fieldsOf
    [("REFERENCE_WORLD_SIZE", .leaf (.sint 16)),
     ("AUTO_SCALING_METHODS", .vlist [.sstr "noop_scale"])]))], false⟩

/-- A strategy that violates the documented contract by assigning
`cfg.SOLVER.REFERENCE_WORLD_SIZE = 99`. -/
def exBadStrategy : Strategy := fun c _ =>
  match setAttr2F c.fields "SOLVER" "REFERENCE_WORLD_SIZE" (.leaf (.sint 99)) with
  | some fs => ⟨fs, c.frozen⟩
  | none => c

/-- A registry holding only the contract-violating strategy. -/
def exRegBad : String → Option Strategy :=
  fun s => if s = "bad_scale" then some exBadStrategy else none

/-- A config pinned to reference world size 1 whose pipeline runs the
contract-violating strategy. -/
def exCfgRef1 : Cfg :=
  ⟨fieldsOf [("SOLVER", .vnode (fieldsOf
    [("REFERENCE_WORLD_SIZE", .leaf (.sint 1)),
     ("AUTO_SCALING_METHODS", .vlist [.sstr "bad_scale"])]))], false⟩

/-- The final state of `exCfgRef1` after `auto_scale_world_size(cfg, 2)`:
the strategy's 99 was silently overwritten with the target world size 2. -/
def exCfgRef1Final : Cfg :=
  ⟨fieldsOf [("SOLVER", .vnode (fieldsOf
    [("REFERENCE_WORLD_SIZE", .leaf (.sint 2)),
     ("AUTO_SCALING_METHODS", .vlist [.sstr "bad_scale"])]))], false⟩

/-! ### Claims about `auto_scale_world_size` -/

/-- C6: for every config whose `SOLVER.REFERENCE_WORLD_SIZE` is `0` or
already equals `new_world_size`, `auto_scale_world_size` returns the input
config itself (a tree equal to the input, unmodified), whatever the
registry holds — so no registered strategy is consulted or invoked. -/
theorem c6_noop_returns_input_unchanged (registry : String → Option Strategy)
    (cfg : Cfg) (n : Int) (v : Value)
    (hv : getAttr2 cfg "SOLVER" "REFERENCE_WORLD_SIZE" = some v)
    (hz : v = .leaf (.sint 0) ∨ v = .leaf (.sint n)) :
    autoScaleWorldSize registry cfg n = .ok (cfg, some cfg) := by
  unfold autoScaleWorldSize
  rw [hv]
  simp only
  rw [if_pos hz]

/-- Witness for C6 at `exCfg8` with `new_world_size = 8`. -/
theorem c6_witness :
    getAttr2 exCfg8 "SOLVER" "REFERENCE_WORLD_SIZE" = some (.leaf (.sint 8)) ∧
    ((Value.leaf (.sint 8) = .leaf (.sint 0)) ∨ (Value.leaf (.sint 8) = .leaf (.sint 8))) ∧
    autoScaleWorldSize exRegNoop exCfg8 8 = .ok (exCfg8, some exCfg8) :=
  ⟨by decide, by decide,
   c6_noop_returns_input_unchanged exRegNoop exCfg8 8 (.leaf (.sint 8))
     (by decide) (by decide)⟩

/-- C1 counterexample: on a config with reference world size 8 scaled to 16
(the scaling branch), `auto_scale_world_size` mutates the tree in place but
its Python return value is `None` (second component `none`), not the scaled
config — the claim that the scaling branch returns `cfg'` is false. -/
theorem c1_counterexample :
    getAttr2 exCfg8 "SOLVER" "REFERENCE_WORLD_SIZE" = some (.leaf (.sint 8)) ∧
    autoScaleWorldSize exRegNoop exCfg8 16 = .ok (exCfg8to16, none) ∧
    (none : Option Cfg) ≠ some exCfg8to16 := by
  refine ⟨by decide, by decide, by decide⟩

/-- C1 amended: whenever the scaling branch is taken (reference world size
present, nonzero and different from `new_world_size`) and the run completes,
the Python return value is `None`; the scaled tree is only the in-place
final state of `cfg`, not the return value. -/
theorem c1_scaling_branch_returns_none (registry : String → Option Strategy)
    (cfg : Cfg) (n : Int) (v : Value) (r : Cfg × Option Cfg)
    (hv : getAttr2 cfg "SOLVER" "REFERENCE_WORLD_SIZE" = some v)
    (h0 : v ≠ .leaf (.sint 0)) (hn : v ≠ .leaf (.sint n))
    (hok : autoScaleWorldSize registry cfg n = .ok r) :
    r.2 = none := by
  unfold autoScaleWorldSize at hok
  rw [hv] at hok
  simp only at hok
  rw [if_neg (by rintro (h | h); exacts [h0 h, hn h])] at hok
  repeat' split at hok
  all_goals try exact Except.noConfusion hok
  all_goals
    rw [Except.ok.injEq] at hok
    rw [← hok]

/-- Witness for the amended C1 at `exCfg8` scaled to 16. -/
theorem c1_witness :
    getAttr2 exCfg8 "SOLVER" "REFERENCE_WORLD_SIZE" = some (.leaf (.sint 8)) ∧
    (Value.leaf (.sint 8) ≠ .leaf (.sint 0)) ∧
    (Value.leaf (.sint 8) ≠ .leaf (.sint 16)) ∧
    autoScaleWorldSize exRegNoop exCfg8 16 = .ok (exCfg8to16, none) ∧
    (exCfg8to16, (none : Option Cfg)).2 = none :=
  ⟨by decide, by decide, by decide, by decide,
   c1_scaling_branch_returns_none exRegNoop exCfg8 16 (.leaf (.sint 8))
     (exCfg8to16, none) (by decide) (by decide) (by decide) (by decide)⟩

/-- C2 is a bug in the code: the post-pipeline assertion compares
`cfg.SOLVER.REFERENCE_WORLD_SIZE` with itself, so it can never fail. On a
pipeline whose strategy rewrites the reference world size to 99, the run
still succeeds (no AssertionError) and the 99 is silently overwritten with
the target world size, contradicting the assertion's own message. -/
theorem c2_assert_never_fires :
    getAttr2 (exBadStrategy ⟨exCfgRef1.fields, false⟩ 2)
      "SOLVER" "REFERENCE_WORLD_SIZE" = some (.leaf (.sint 99)) ∧
    autoScaleWorldSize exRegBad exCfgRef1 2 = .ok (exCfgRef1Final, none) ∧
    getAttr2 exCfgRef1Final "SOLVER" "REFERENCE_WORLD_SIZE" = some (.leaf (.sint 2)) := by
  refine ⟨by decide, by decide, by decide⟩

/-- C7: every completed run that takes the scaling branch ends with
`SOLVER.REFERENCE_WORLD_SIZE` equal to `new_world_size` in the final state
of `cfg`, and the final frozen flag equal to the entry frozen flag. -/
theorem c7_scaling_sets_reference_and_restores_frozen
    (registry : String → Option Strategy) (cfg : Cfg) (n : Int)
    (v : Value) (c2 : Cfg) (r : Option Cfg)
    (hv : getAttr2 cfg "SOLVER" "REFERENCE_WORLD_SIZE" = some v)
    (h0 : v ≠ .leaf (.sint 0)) (hn : v ≠ .leaf (.sint n))
    (hok : autoScaleWorldSize registry cfg n = .ok (c2, r)) :
    getAttr2 c2 "SOLVER" "REFERENCE_WORLD_SIZE" = some (.leaf (.sint n)) ∧
    c2.frozen = cfg.frozen := by
  unfold autoScaleWorldSize at hok
  rw [hv] at hok
  simp only at hok
  rw [if_neg (by rintro (h | h); exacts [h0 h, hn h])] at hok
  repeat' split at hok
  all_goals try exact Except.noConfusion hok
  all_goals
    rw [Except.ok.injEq, Prod.mk.injEq] at hok
    obtain ⟨h1, h2⟩ := hok
    subst h1
    refine ⟨getAttr2_setAttr2F (by assumption), ?_⟩
    simp_all [cfgClone]

/-! ### Claims about `get_cfg_diff_table` -/

/-- A tree with a nested key `A.B` and a top-level key `A-X` (the hyphen
orders below the dot in code-point order). -/
def exTreeA : Fields :=
  fieldsOf [("A", .vnode (fieldsOf [("B", .leaf (.sint 1))])), ("A-X", .leaf (.sint 2))]

/-- `exTreeA` with both leaf values changed. -/
def exTreeB : Fields :=
  fieldsOf [("A", .vnode (fieldsOf [("B", .leaf (.sint 3))])), ("A-X", .leaf (.sint 4))]

/-- A tree with a different key set. -/
def exTreeC : Fields := fieldsOf [("Z", .leaf (.sint 1))]

theorem diffRows_eq_spec (orig cfg : Fields) : ∀ keys : List String,
    (∀ k, k ∈ keys → (getValue (.vnode orig) (splitDot k)).isSome ∧
      (getValue (.vnode cfg) (splitDot k)).isSome) →
    diffRows orig cfg keys = .ok (diffRecordSpec orig cfg keys)
  | [], _ => rfl
  | k :: rest, h => by
    obtain ⟨ho, hn⟩ := h k (List.mem_cons_self k rest)
    obtain ⟨o, ho⟩ := Option.isSome_iff_exists.mp ho
    obtain ⟨n, hn⟩ := Option.isSome_iff_exists.mp hn
    have ih := diffRows_eq_spec orig cfg rest
      (fun k2 hk2 => h k2 (List.mem_cons_of_mem _ hk2))
    unfold diffRows
    rw [ho, hn, ih]
    simp only [diffRecordSpec, List.filterMap_cons, ho, hn]
    by_cases hne : o = n
    · simp [hne]
    · simp [hne]

theorem diffRecordSpec_self (t : Fields) : ∀ keys : List String,
    diffRecordSpec t t keys = []
  | [] => rfl
  | k :: rest => by
    have ih := diffRecordSpec_self t rest
    simp only [diffRecordSpec, List.filterMap_cons] at ih ⊢
    cases h : getValue (.vnode t) (splitDot k) with
    | none => simpa [h] using ih
    | some o => simpa [h] using ih

/-- C5 counterexample: two trees with identical key sets, differing at both
leaves `A.B` and `A-X`. The diff lists `A.B` before `A-X` (sorted keys at
each level of the traversal), yet `"A-X" < "A.B"` in the lexicographic
order of the dotted key paths (`-` is code point 45, `.` is 46) — so the
rows are not produced in lexicographic dotted-path order. -/
theorem c5_counterexample :
    getCfgDiffTable exTreeB exTreeA =
      .ok [("A.B", .leaf (.sint 1), .leaf (.sint 3)),
           ("A-X", .leaf (.sint 2), .leaf (.sint 4))] ∧
    strLt "A-X" "A.B" = true := by
  refine ⟨by decide, by decide⟩

/-- C5 amended: when the flattened key lists (depth-first, keys sorted at
each level) of the two trees are equal and every listed dotted key resolves
back in both trees, the diff is exactly one `(key, old, new)` row per listed
key whose values differ, in traversal order (which matches lexicographic
dotted-path order only when keys avoid characters below the dot);
`diff(T, T)` is empty under the same resolvability; if the key lists
differ, the diff fails with the assertion error. Keys containing a dot can
fail to resolve back, because the diff re-splits the dotted path it built. -/
theorem c5_diff_rows (cfg orig : Fields) :
    (findAllKeys orig = findAllKeys cfg →
      (∀ k, k ∈ findAllKeys cfg →
        (getValue (.vnode orig) (splitDot k)).isSome ∧
        (getValue (.vnode cfg) (splitDot k)).isSome) →
      getCfgDiffTable cfg orig = .ok (diffRecordSpec orig cfg (findAllKeys cfg))) ∧
    ((∀ k, k ∈ findAllKeys cfg → (getValue (.vnode cfg) (splitDot k)).isSome) →
      getCfgDiffTable cfg cfg = .ok []) ∧
    (findAllKeys orig ≠ findAllKeys cfg →
      getCfgDiffTable cfg orig = .error "AssertionError: keys differ") := by
  refine ⟨?_, ?_, ?_⟩
  · intro h1 h2
    unfold getCfgDiffTable
    rw [if_pos h1]
    exact diffRows_eq_spec orig cfg (findAllKeys cfg) h2
  · intro h2
    unfold getCfgDiffTable
    rw [if_pos rfl]
    rw [diffRows_eq_spec cfg cfg (findAllKeys cfg) (fun k hk => ⟨h2 k hk, h2 k hk⟩)]
    rw [diffRecordSpec_self]
  · intro h1
    unfold getCfgDiffTable
    rw [if_neg h1]

/-- Witness for the amended C5: the equal-keys diff, the self diff, and the
mismatched-keys failure, at concrete trees. -/
theorem c5_witness :
    findAllKeys exTreeA = findAllKeys exTreeB ∧
    getCfgDiffTable exTreeB exTreeA =
      .ok (diffRecordSpec exTreeA exTreeB (findAllKeys exTreeB)) ∧
    getCfgDiffTable exTreeA exTreeA = .ok [] ∧
    findAllKeys exTreeC ≠ findAllKeys exTreeB ∧
    getCfgDiffTable exTreeB exTreeC = .error "AssertionError: keys differ" :=
  ⟨by decide,
   (c5_diff_rows exTreeB exTreeA).1 (by decide) (by decide),
   (c5_diff_rows exTreeA exTreeA).2.1 (by decide),
   by decide,
   (c5_diff_rows exTreeB exTreeC).2.2 (by decide)⟩

/-! ### Claims about `reroute_load_yaml_with_base` -/

/-- Reroute collaborator used in examples: resolves a nominal path into a
bundle directory. -/
def exReroute : String → String := fun s => "rerouted/" ++ s

/-- A document whose reserved inheritance key holds an ordered sequence of
two base paths. -/
def exDocSeq : Fields :=
  fieldsOf [("_BASE_", .vlist [.sstr "a.yaml", .sstr "b.yaml"]), ("K", .leaf (.sint 1))]

/-- A document whose reserved inheritance key holds a single base path. -/
def exDocSingle : Fields :=
  fieldsOf [("_BASE_", .leaf (.sstr "base.yaml")), ("K", .leaf (.sint 1))]

/-- A one-file filesystem holding `exDocSingle` at the rerouted top path. -/
def exFsC4 : String → Option Fields :=
  fun s => if s = "rerouted/top.yaml" then some exDocSingle else none

/-- C4 counterexample: on a document whose `_BASE_` key holds an ordered
sequence of paths, the patched loader hands the whole sequence to the
string-typed `reroute_config_path` collaborator instead of rerouting each
element, and fails — the elements are not rerouted individually. -/
theorem c4_counterexample :
    mockSafeLoad exReroute exDocSeq =
      .error "TypeError: reroute_config_path expects a path string" ∧
    mockSafeLoad exReroute exDocSeq ≠
      .ok (setKeyF exDocSeq "_BASE_"
        (.vlist [.sstr (exReroute "a.yaml"), .sstr (exReroute "b.yaml")])) := by
  refine ⟨by decide, by decide⟩

/-- C4 amended: rerouting is applied to the top-level filename before the
file is opened and to the `_BASE_` value when it is a single path string;
an absent `_BASE_` leaves the document unchanged; a sequence-valued
`_BASE_` is passed whole to the string-typed reroute collaborator and
fails, its elements are not rerouted individually. -/
theorem c4_reroute_single_path_only (reroute : String → String)
    (fs : String → Option Fields) (filename : String) (doc : Fields) :
    (fs (reroute filename) = some doc →
      loadTopDocument reroute fs filename = mockSafeLoad reroute doc) ∧
    (lookupF doc "_BASE_" = none → mockSafeLoad reroute doc = .ok doc) ∧
    (∀ p, lookupF doc "_BASE_" = some (.leaf (.sstr p)) →
      mockSafeLoad reroute doc =
        .ok (setKeyF doc "_BASE_" (.leaf (.sstr (reroute p))))) ∧
    (∀ xs, lookupF doc "_BASE_" = some (.vlist xs) →
      mockSafeLoad reroute doc =
        .error "TypeError: reroute_config_path expects a path string") := by
  refine ⟨?_, ?_, ?_, ?_⟩
  · intro h
    unfold loadTopDocument
    rw [h]
  · intro h
    unfold mockSafeLoad
    rw [h]
  · intro p h
    unfold mockSafeLoad
    rw [h]
  · intro xs h
    unfold mockSafeLoad
    rw [h]

/-- Witness for the amended C4 on a single-path document reached through a
rerouted top-level filename. -/
theorem c4_witness :
    exFsC4 (exReroute "top.yaml") = some exDocSingle ∧
    lookupF exDocSingle "_BASE_" = some (.leaf (.sstr "base.yaml")) ∧
    loadTopDocument exReroute exFsC4 "top.yaml" = mockSafeLoad exReroute exDocSingle ∧
    mockSafeLoad exReroute exDocSingle =
      .ok (setKeyF exDocSingle "_BASE_" (.leaf (.sstr (exReroute "base.yaml")))) :=
  ⟨by decide, by decide,
   (c4_reroute_single_path_only exReroute exFsC4 "top.yaml" exDocSingle).1 (by decide),
   (c4_reroute_single_path_only exReroute exFsC4 "top.yaml" exDocSingle).2.2.1
     "base.yaml" (by decide)⟩

/-! ### Claims about `get_field_or_none` -/

theorem splitDotAux_ne_nil : ∀ (cs acc : List Char), splitDotAux cs acc ≠ []
  | [], acc => by simp [splitDotAux]
  | c :: rest, acc => by
    rw [splitDotAux]
    by_cases hc : c = '.'
    · rw [if_pos hc]
      simp
    · rw [if_neg hc]
      exact splitDotAux_ne_nil rest (c :: acc)

theorem getFieldOrNoneGo_eq : ∀ (rest : List String) (v : Value) (seg : String),
    getFieldOrNoneGo v ((seg :: rest).getLast (by simp)) ((seg :: rest).dropLast) =
      (getValue v (seg :: rest)).getD (.leaf .snone)
  | [], v, seg => by
    cases v with
    | vnode fs =>
      cases h : lookupF fs seg <;>
        simp [getFieldOrNoneGo, getValue, h, List.getLast, List.dropLast]
    | leaf s => rfl
    | vlist l => rfl
  | b :: rest2, v, seg => by
    cases v with
    | vnode fs =>
      cases h : lookupF fs seg with
      | none => simp [getFieldOrNoneGo, getValue, h, List.getLast, List.dropLast]
      | some w =>
        have ih := getFieldOrNoneGo_eq rest2 w b
        simp only [List.getLast, List.dropLast, getFieldOrNoneGo, getValue, h]
        exact ih
    | leaf s => rfl
    | vlist l => rfl

/-- A config holding a present field `A` whose stored value is Python
`None`. -/
def exCfgNone : Cfg := ⟨fieldsOf [("A", .leaf .snone)], false⟩

/-- C3 counterexample: the path `A` resolves successfully to a stored `None`
while the path `B` fails to resolve, yet `get_field_or_none` returns the
same value (`None`) for both — the failure result is not a sentinel callers
can distinguish from a successfully-read `None`. -/
theorem c3_counterexample :
    specGetByPath exCfgNone "A" = some (.leaf .snone) ∧
    specGetByPath exCfgNone "B" = none ∧
    getFieldOrNone exCfgNone "A" = getFieldOrNone exCfgNone "B" := by
  refine ⟨by decide, by decide, by decide⟩

/-- C3 amended: `get_field_or_none` returns the stored value when the whole
dotted path resolves (each intermediate segment a node, the final segment
present) and Python `None` otherwise; absence is therefore distinguishable
from any present non-`None` value but not from a present `None`. -/
theorem c3_absent_collapses_to_none (c : Cfg) (p : String) :
    getFieldOrNone c p = (specGetByPath c p).getD (.leaf .snone) := by
  cases h : splitDot p with
  | nil => exact absurd h (splitDotAux_ne_nil _ _)
  | cons seg rest =>
    unfold getFieldOrNone specGetByPath
    rw [h]
    exact getFieldOrNoneGo_eq rest (.vnode c.fields) seg

/-- Witness for C7 at `exCfg8` scaled to 16. -/
theorem c7_witness :
    autoScaleWorldSize exRegNoop exCfg8 16 = .ok (exCfg8to16, none) ∧
    getAttr2 exCfg8to16 "SOLVER" "REFERENCE_WORLD_SIZE" = some (.leaf (.sint 16)) ∧
    exCfg8to16.frozen = exCfg8.frozen :=
  ⟨by decide,
   (c7_scaling_sets_reference_and_restores_frozen exRegNoop exCfg8 16
     (.leaf (.sint 8)) exCfg8to16 none (by decide) (by decide) (by decide) (by decide)).1,
   (c7_scaling_sets_reference_and_restores_frozen exRegNoop exCfg8 16
     (.leaf (.sint 8)) exCfg8to16 none (by decide) (by decide) (by decide) (by decide)).2⟩

/-! ### Claims about `merge_from_other_cfg` -/

theorem leafLookupV_vnode_cons (X : Fields) (a : String) (rest : List String) :
    leafLookupV (.vnode X) (a :: rest) =
      match lookupF X a with
      | some u => leafLookupV u rest
      | none => none := by
  unfold leafLookupV
  simp only [getValue]
  cases lookupF X a <;> rfl

theorem leafLookupV_vnode_cons_some (X : Fields) (a : String) (rest : List String)
    (u : Value) (h : lookupF X a = some u) :
    leafLookupV (.vnode X) (a :: rest) = leafLookupV u rest := by
  rw [leafLookupV_vnode_cons, h]

theorem getValue_non_node_cons (u : Value) (d : String) (l : List String)
    (h : isNodeV u = false) : getValue u (d :: l) = none := by
  cases u with
  | vnode fs => simp [isNodeV] at h
  | leaf s => rfl
  | vlist xs => rfl

theorem trigger_decompose (fs : Fields) (a b c : String) (w : Value)
    (ht : getValue (.vnode fs) [a, b, c] = some w) :
    ∃ f1 f2, lookupF fs a = some (.vnode f1) ∧ lookupF f1 b = some (.vnode f2) ∧
      lookupF f2 c = some w := by
  simp only [getValue] at ht
  cases h1 : lookupF fs a with
  | none => rw [h1] at ht; exact absurd ht (by simp)
  | some u =>
    rw [h1] at ht
    cases u with
    | leaf s => exact absurd ht (by simp [getValue])
    | vlist xs => exact absurd ht (by simp [getValue])
    | vnode f1 =>
      simp only [getValue] at ht
      cases h2 : lookupF f1 b with
      | none => rw [h2] at ht; exact absurd ht (by simp)
      | some u2 =>
        rw [h2] at ht
        cases u2 with
        | leaf s => exact absurd ht (by simp [getValue])
        | vlist xs => exact absurd ht (by simp [getValue])
        | vnode f2 =>
          simp only [getValue] at ht
          cases h3 : lookupF f2 c with
          | none => rw [h3] at ht; exact absurd ht (by simp)
          | some u3 =>
            rw [h3] at ht
            simp only [getValue, Option.some.injEq] at ht
            refine ⟨f1, f2, rfl, h2, ?_⟩
            exact ht ▸ h3

theorem leafLookup_setAttr3_ne (fs f1 f2 : Fields) (k1 k2 k3 : String) (v w : Value)
    (hv : isNodeV v = false) (hw : isNodeV w = false)
    (h1 : lookupF fs k1 = some (.vnode f1))
    (h2 : lookupF f1 k2 = some (.vnode f2))
    (h3 : lookupF f2 k3 = some w) :
    ∀ q : List String, q ≠ [k1, k2, k3] →
      leafLookup (setKeyF fs k1 (.vnode (setKeyF f1 k2 (.vnode (setKeyF f2 k3 v))))) q =
        leafLookup fs q := by
  intro q hq
  unfold leafLookup
  match q with
  | [] => rfl
  | a :: qrest =>
    by_cases ha : a = k1
    case neg =>
      rw [leafLookupV_vnode_cons, leafLookupV_vnode_cons,
        lookupF_setKeyF_ne fs k1 a _ ha]
    case pos =>
      subst ha
      rw [leafLookupV_vnode_cons_some _ _ _ _ (lookupF_setKeyF_self fs a _),
        leafLookupV_vnode_cons_some _ _ _ _ h1]
      match qrest with
      | [] => rfl
      | b :: qrest2 =>
        by_cases hb : b = k2
        case neg =>
          rw [leafLookupV_vnode_cons, leafLookupV_vnode_cons,
            lookupF_setKeyF_ne f1 k2 b _ hb]
        case pos =>
          subst hb
          rw [leafLookupV_vnode_cons_some _ _ _ _ (lookupF_setKeyF_self f1 b _),
            leafLookupV_vnode_cons_some _ _ _ _ h2]
          match qrest2 with
          | [] => rfl
          | c :: qrest3 =>
            by_cases hc : c = k3
            case neg =>
              rw [leafLookupV_vnode_cons, leafLookupV_vnode_cons,
                lookupF_setKeyF_ne f2 k3 c _ hc]
            case pos =>
              subst hc
              rw [leafLookupV_vnode_cons_some _ _ _ _ (lookupF_setKeyF_self f2 c _),
                leafLookupV_vnode_cons_some _ _ _ _ h3]
              match qrest3 with
              | [] => exact absurd rfl hq
              | d :: qrest4 =>
                unfold leafLookupV
                rw [getValue_non_node_cons v d qrest4 hv,
                  getValue_non_node_cons w d qrest4 hw]

theorem getValue_chain (fs f1 f2 : Fields) (a b c : String) (w : Value)
    (h1 : lookupF fs a = some (.vnode f1)) (h2 : lookupF f1 b = some (.vnode f2))
    (h3 : lookupF f2 c = some w) : getValue (.vnode fs) [a, b, c] = some w := by
  simp [getValue, h1, h2, h3]

theorem archDefCond_of_trigger (c : Cfg)
    (ht : getValue (.vnode c.fields) ["MODEL", "FBNET_V2", "ARCH_DEF"] =
      some (.leaf (.sstr ""))) :
    archDefCond c = .ok true := by
  obtain ⟨f1, f2, h1, h2, h3⟩ := trigger_decompose c.fields _ _ _ _ ht
  simp [archDefCond, pyGet, h1, h2, h3]

theorem archDefFixup_trigger (other : Cfg) (hfz : other.frozen = false)
    (f1 f2 : Fields)
    (h1 : lookupF other.fields "MODEL" = some (.vnode f1))
    (h2 : lookupF f1 "FBNET_V2" = some (.vnode f2))
    (h3 : lookupF f2 "ARCH_DEF" = some (.leaf (.sstr ""))) :
    archDefFixup other = .ok
      ⟨setKeyF other.fields "MODEL" (.vnode (setKeyF f1 "FBNET_V2"
        (.vnode (setKeyF f2 "ARCH_DEF" (.vlist []))))), false⟩ := by
  unfold archDefFixup
  rw [archDefCond_of_trigger other (getValue_chain _ f1 f2 _ _ _ _ h1 h2 h3)]
  simp [setAttr3F, h1, h2, hfz]

theorem leafLookup_setAttr3_self (fs f1 f2 : Fields) (k1 k2 k3 : String) (v : Value)
    (hv : isNodeV v = false) :
    leafLookup (setKeyF fs k1 (.vnode (setKeyF f1 k2 (.vnode (setKeyF f2 k3 v)))))
      [k1, k2, k3] = some v := by
  unfold leafLookup
  rw [leafLookupV_vnode_cons_some _ _ _ _ (lookupF_setKeyF_self fs k1 _),
    leafLookupV_vnode_cons_some _ _ _ _ (lookupF_setKeyF_self f1 k2 _),
    leafLookupV_vnode_cons_some _ _ _ _ (lookupF_setKeyF_self f2 k3 _)]
  unfold leafLookupV
  simp [getValue, hv]

/-- C9 amended: for every non-frozen incoming tree, the fixup at the head of
`merge_from_other_cfg` rewrites `MODEL.FBNET_V2.ARCH_DEF` to the empty list
if and only if the incoming tree carries that field with the old default
`""` (the trigger test evaluating to false leaves the tree untouched);
the rewrite changes no other leaf field, happens before the external
recursive merge runs, and the merged-from tree handed to the super merge is
the rewritten one. (The accompanying warning is logging, outside the
embedding; a frozen incoming tree instead fails, see the
counterexample.) -/
theorem c9_fixup_rewrites_arch_def (other : Cfg) (hfz : other.frozen = false) :
    (getValue (.vnode other.fields) ["MODEL", "FBNET_V2", "ARCH_DEF"] =
        some (.leaf (.sstr "")) →
      ∃ other2, archDefFixup other = .ok other2 ∧ other2.frozen = false ∧
        leafLookup other2.fields ["MODEL", "FBNET_V2", "ARCH_DEF"] = some (.vlist []) ∧
        (∀ q, q ≠ ["MODEL", "FBNET_V2", "ARCH_DEF"] →
          leafLookup other2.fields q = leafLookup other.fields q) ∧
        (∀ superMerge self s2, superMerge self other2 = .ok s2 →
          mergeFromOtherCfg superMerge self other = .ok (s2, other2))) ∧
    (archDefCond other = .ok false →
      archDefFixup other = .ok other ∧
      ∀ superMerge self s2, superMerge self other = .ok s2 →
        mergeFromOtherCfg superMerge self other = .ok (s2, other)) := by
  constructor
  · intro ht
    obtain ⟨f1, f2, h1, h2, h3⟩ := trigger_decompose other.fields _ _ _ _ ht
    have hfix := archDefFixup_trigger other hfz f1 f2 h1 h2 h3
    refine ⟨_, hfix, rfl, leafLookup_setAttr3_self _ f1 f2 _ _ _ _ rfl, ?_, ?_⟩
    · exact leafLookup_setAttr3_ne other.fields f1 f2 "MODEL" "FBNET_V2" "ARCH_DEF"
        (.vlist []) (.leaf (.sstr "")) rfl rfl h1 h2 h3
    · intro superMerge self s2 hs2
      simp [mergeFromOtherCfg, hfix, hs2]
  · intro hc
    have hfix : archDefFixup other = .ok other := by
      unfold archDefFixup
      rw [hc]
    refine ⟨hfix, ?_⟩
    intro superMerge self s2 hs2
    simp [mergeFromOtherCfg, hfix, hs2]

/-- C10: when the deprecated-field migration triggers (non-frozen incoming
tree carrying `MODEL.FBNET_V2.ARCH_DEF = ""`), a successful
`merge_from_other_cfg` leaves the caller's `cfg_other` mutated: its final
state holds `[]` at that field and differs from the tree passed in. -/
theorem c10_merge_mutates_argument (superMerge : Cfg → Cfg → Except String Cfg)
    (self other s2 o2 : Cfg) (hfz : other.frozen = false)
    (ht : getValue (.vnode other.fields) ["MODEL", "FBNET_V2", "ARCH_DEF"] =
      some (.leaf (.sstr "")))
    (hok : mergeFromOtherCfg superMerge self other = .ok (s2, o2)) :
    leafLookup o2.fields ["MODEL", "FBNET_V2", "ARCH_DEF"] = some (.vlist []) ∧
    leafLookup other.fields ["MODEL", "FBNET_V2", "ARCH_DEF"] =
      some (.leaf (.sstr "")) ∧
    o2 ≠ other := by
  obtain ⟨f1, f2, h1, h2, h3⟩ := trigger_decompose other.fields _ _ _ _ ht
  have hfix := archDefFixup_trigger other hfz f1 f2 h1 h2 h3
  simp only [mergeFromOtherCfg, hfix] at hok
  have hother : leafLookup other.fields ["MODEL", "FBNET_V2", "ARCH_DEF"] =
      some (.leaf (.sstr "")) := by
    unfold leafLookup leafLookupV
    rw [ht]
    rfl
  cases hsm : superMerge self ⟨setKeyF other.fields "MODEL" (.vnode (setKeyF f1 "FBNET_V2"
      (.vnode (setKeyF f2 "ARCH_DEF" (.vlist []))))), false⟩ with
  | error e => rw [hsm] at hok; exact absurd hok (by simp)
  | ok sOk =>
    rw [hsm] at hok
    simp only [Except.ok.injEq, Prod.mk.injEq] at hok
    obtain ⟨hs, ho⟩ := hok
    have harch : leafLookup o2.fields ["MODEL", "FBNET_V2", "ARCH_DEF"] =
        some (.vlist []) := by
      rw [← ho]
      exact leafLookup_setAttr3_self _ f1 f2 _ _ _ _ rfl
    refine ⟨harch, hother, ?_⟩
    intro he
    rw [he, hother] at harch
    exact absurd harch (by simp)

/-- An unfrozen incoming tree carrying the deprecated field
`MODEL.FBNET_V2.ARCH_DEF` with the old default `""`, plus one sibling
field. -/
def exOtherTrig : Cfg :=
  ⟨fieldsOf [("MODEL", .vnode (fieldsOf [("FBNET_V2", .vnode (fieldsOf
    [("ARCH_DEF", .leaf (.sstr "")), ("WIDTH", .leaf (.sint 3))]))]))], false⟩

/-- `exOtherTrig` after the fixup: `ARCH_DEF` rewritten to `[]`, everything
else unchanged. -/
def exOtherTrigFixed : Cfg :=
  ⟨fieldsOf [("MODEL", .vnode (fieldsOf [("FBNET_V2", .vnode (fieldsOf
    [("ARCH_DEF", .vlist []), ("WIDTH", .leaf (.sint 3))]))]))], false⟩

/-- The frozen variant of `exOtherTrig`. -/
def exOtherFrozen : Cfg :=
  ⟨fieldsOf [("MODEL", .vnode (fieldsOf [("FBNET_V2", .vnode (fieldsOf
    [("ARCH_DEF", .leaf (.sstr "")), ("WIDTH", .leaf (.sint 3))]))]))], true⟩

/-- An external super merge that succeeds and leaves the receiver as is. -/
def exSuperOk : Cfg → Cfg → Except String Cfg := fun s _ => .ok s

/-- An empty receiver config. -/
def exSelf : Cfg := ⟨.fnil, false⟩

/-- C9 counterexample: a frozen incoming tree carrying
`MODEL.FBNET_V2.ARCH_DEF = ""` makes `merge_from_other_cfg` fail with the
frozen-mutation AttributeError (spec section 3 invariant 2: in-place
mutation fails when frozen) — the value is not rewritten and the merge
never runs, so the claimed rewrite does not happen for every incoming
tree. -/
theorem c9_counterexample :
    getValue (.vnode exOtherFrozen.fields) ["MODEL", "FBNET_V2", "ARCH_DEF"] =
      some (.leaf (.sstr "")) ∧
    exOtherFrozen.frozen = true ∧
    mergeFromOtherCfg exSuperOk exSelf exOtherFrozen =
      .error "AttributeError: frozen CfgNode" ∧
    leafLookup exOtherFrozen.fields ["MODEL", "FBNET_V2", "ARCH_DEF"] =
      some (.leaf (.sstr "")) := by
  refine ⟨by decide, by decide, by decide, by decide⟩

/-- Witness for the amended C9 at `exOtherTrig`. -/
theorem c9_witness :
    exOtherTrig.frozen = false ∧
    getValue (.vnode exOtherTrig.fields) ["MODEL", "FBNET_V2", "ARCH_DEF"] =
      some (.leaf (.sstr "")) ∧
    archDefFixup exOtherTrig = .ok exOtherTrigFixed ∧
    leafLookup exOtherTrigFixed.fields ["MODEL", "FBNET_V2", "ARCH_DEF"] =
      some (.vlist []) ∧
    leafLookup exOtherTrigFixed.fields ["MODEL", "FBNET_V2", "WIDTH"] =
      leafLookup exOtherTrig.fields ["MODEL", "FBNET_V2", "WIDTH"] ∧
    mergeFromOtherCfg exSuperOk exSelf exOtherTrig = .ok (exSelf, exOtherTrigFixed) := by
  obtain ⟨other2, ho, hfz2, harch, hothers, hmerge⟩ :=
    (c9_fixup_rewrites_arch_def exOtherTrig (by decide)).1 (by decide)
  have he : other2 = exOtherTrigFixed := by
    have h2 : (Except.ok other2 : Except String Cfg) = .ok exOtherTrigFixed := by
      rw [← ho]
      decide
    simpa using h2
  subst he
  exact ⟨by decide, by decide, ho, harch, hothers _ (by decide),
    hmerge exSuperOk exSelf exSelf (by decide)⟩

/-- Witness for C10 at `exOtherTrig` merged through `exSuperOk`. -/
theorem c10_witness :
    mergeFromOtherCfg exSuperOk exSelf exOtherTrig = .ok (exSelf, exOtherTrigFixed) ∧
    leafLookup exOtherTrigFixed.fields ["MODEL", "FBNET_V2", "ARCH_DEF"] =
      some (.vlist []) ∧
    leafLookup exOtherTrig.fields ["MODEL", "FBNET_V2", "ARCH_DEF"] =
      some (.leaf (.sstr "")) ∧
    exOtherTrigFixed ≠ exOtherTrig :=
  ⟨by decide,
   (c10_merge_mutates_argument exSuperOk exSelf exOtherTrig exSelf exOtherTrigFixed
     (by decide) (by decide) (by decide)).1,
   (c10_merge_mutates_argument exSuperOk exSelf exOtherTrig exSelf exOtherTrigFixed
     (by decide) (by decide) (by decide)).2.1,
   (c10_merge_mutates_argument exSuperOk exSelf exOtherTrig exSelf exOtherTrigFixed
     (by decide) (by decide) (by decide)).2.2⟩

end D2GoConfig
